import Mathlib

set_option autoImplicit false

/-!
Shallow embedding of the VCD-to-frame extraction core of
`src/4-soc/scripts/vga_render.py` (class `VCDParser`: `parse_header` and
`extract_frames`).  Python strings are modelled as `List Char`, Python
integers as `Int` (counters as `Nat`), Python dicts as insertion-ordered
association lists with in-place update.
-/

namespace VgaRender

abbrev Str := List Char

/-- ASCII whitespace as recognized by Python `str.split()` / `str.strip()`. -/
def pySpace (c : Char) : Bool :=
  c = ' ' || c = '\t' || c = '\n' || c = '\r' || c = '\x0b' || c = '\x0c'

/-- Python `str.strip()` on ASCII input. -/
def pyStrip (s : Str) : Str :=
  ((s.dropWhile fun c => pySpace c).reverse.dropWhile fun c => pySpace c).reverse

/-- Accumulator version of Python `str.split()` (split on whitespace runs,
    no empty tokens). -/
def pySplitAux : Str → Str → List Str
  | [], acc => if acc = [] then [] else [acc.reverse]
  | c :: rest, acc =>
    if pySpace c then
      if acc = [] then pySplitAux rest [] else acc.reverse :: pySplitAux rest []
    else pySplitAux rest (c :: acc)

/-- Python `str.split()` with no arguments. -/
def pySplit (s : Str) : List Str := pySplitAux s []

/-- Python substring containment (`needle in line`). -/
def containsTok (needle : Str) : Str → Bool
  | [] => needle.isPrefixOf ([] : Str)
  | c :: rest => needle.isPrefixOf (c :: rest) || containsTok needle rest

/-- Python dict assignment `d[k] = v`: update in place when the key exists,
    append otherwise (insertion order preserved). -/
def dinsert {α β : Type} [DecidableEq α] : List (α × β) → α → β → List (α × β)
  | [], k, v => [(k, v)]
  | (k', v') :: rest, k, v =>
    if k' = k then (k, v) :: rest else (k', v') :: dinsert rest k v

/-- Python dict lookup `d.get(k)`. -/
def dget {α β : Type} [DecidableEq α] : List (α × β) → α → Option β
  | [], _ => none
  | (k', v') :: rest, k => if k' = k then some v' else dget rest k

/-- Digit run of CPython `int(s, 2)` after sign and base-marker handling:
    binary digits separated by single underscores.  `lastDigit` records
    whether the previous character was a digit (an underscore is legal only
    directly after a digit, and the run must end on a digit). -/
def pyBinCore : Str → Nat → Bool → Option Nat
  | [], acc, lastDigit => if lastDigit then some acc else none
  | c :: rest, acc, lastDigit =>
    if c = '0' then pyBinCore rest (2 * acc) true
    else if c = '1' then pyBinCore rest (2 * acc + 1) true
    else if c = '_' then (if lastDigit then pyBinCore rest acc false else none)
    else none

/-- After an optional `0b`/`0B` base marker one underscore may follow the
    marker itself before the digit run starts. -/
def pyBinAfter : Str → Option Nat
  | '_' :: rest => pyBinCore rest 0 false
  | rest => pyBinCore rest 0 false

/-- CPython `int(s, 2)` body after the optional sign: optional `0b`/`0B`
    base marker, then the digit run. -/
def pyBinBody : Str → Option Nat
  | '0' :: 'b' :: rest => pyBinAfter rest
  | '0' :: 'B' :: rest => pyBinAfter rest
  | s => pyBinCore s 0 false

/-- CPython `int(s, 2)` on ASCII input (the only strings the trace grammar
    can feed it): optional surrounding whitespace, optional single sign,
    optional `0b`/`0B` marker, binary digits with single interior
    underscores.  `none` where CPython raises `ValueError`. -/
def pyIntBin (s : Str) : Option Int :=
  match pyStrip s with
  | '-' :: rest => (pyBinBody rest).map fun n => -(n : Int)
  | '+' :: rest => (pyBinBody rest).map fun n => (n : Int)
  | t => (pyBinBody t).map fun n => (n : Int)

/-- `int(value_str, 2) if value_str else 0` under `try/except ValueError`:
    `none` means the assignment is skipped (`except ValueError: pass`). -/
def pyTryBin (s : Str) : Option Int :=
  if s = [] then some 0 else pyIntBin s

def ioVgaPre : Str := "io_vga_".toList

def varTok : Str := "$var".toList

def endDefsTok : Str := "$enddefinitions".toList

/-- The registration performed by one header line of `parse_header`:
    a `$var` line with at least five whitespace-separated fields whose
    fifth field (the signal name) carries the `io_vga_` namespace marker
    stores `name ↦ id` (fields 4 and 5 of the line). -/
def headerLineInsert (ids : List (Str × Str)) (line : Str) : List (Str × Str) :=
  if varTok.isPrefixOf line || varTok.isPrefixOf (pyStrip line) then
    if 5 ≤ (pySplit (pyStrip line)).length then
      if ioVgaPre.isPrefixOf ((pySplit (pyStrip line)).getD 4 []) then
        dinsert ids ((pySplit (pyStrip line)).getD 4 []) ((pySplit (pyStrip line)).getD 3 [])
      else ids
    else ids
  else ids

/-- `VCDParser.parse_header`: fold `headerLineInsert` over the lines,
    stopping after the first line that contains the end-of-definitions
    marker (that line's own `$var` processing still happens first, as in
    the source's loop body). -/
def parse_header : List Str → List (Str × Str) → List (Str × Str)
  | [], ids => ids
  | line :: rest, ids =>
    if containsTok endDefsTok line then headerLineInsert ids line
    else parse_header rest (headerLineInsert ids line)

/-- A frame: the Python dict mapping `(x, y)` to the decoded color value. -/
abbrev Frame := List ((Int × Int) × Int)

/-- The six resolved signal identifiers (`signal_ids.get(...)` results). -/
structure SigIds where
  hsyncId : Option Str
  vsyncId : Option Str
  activeId : Option Str
  colorId : Option Str
  xId : Option Str
  yId : Option Str
deriving DecidableEq, Repr

/-- The mutable state of `extract_frames`' replay loop: the output list,
    the open frame, the pixel counter, the (write-only) `in_frame` flag,
    the dedicated `prev_vsync` history bit, and the `current_state`
    snapshot dict with its fields flattened (`color` is the initial
    string `"000000"`, which no branch of the source ever updates). -/
structure RState where
  frames : List Frame
  currentFrame : Frame
  pixelCount : Nat
  inFrame : Bool
  prevVsync : Char
  hsync : Char
  vsync : Char
  active : Char
  color : Str
  x : Int
  y : Int
deriving DecidableEq, Repr

/-- The state just before the first body line is processed. -/
def initState : RState :=
  { frames := [], currentFrame := [], pixelCount := 0, inFrame := false,
    prevVsync := '1', hsync := '1', vsync := '1', active := '0',
    color := "000000".toList, x := 0, y := 0 }

/-- One body line of the replay loop.  `Sum.inr frames` is the early
    `return frames` taken when the pixel ceiling is reached; `Sum.inl`
    carries the state into the next iteration.  The Python locals `line`,
    `value`, `sig_id`, `parts`, `value_str`, `color_val` and `cnt` are
    inlined as the corresponding pure expressions. -/
def stepLine (ids : SigIds) (maxPixels : Nat) (st : RState) (rawLine : Str) :
    RState ⊕ List Frame :=
  if pyStrip rawLine = [] then .inl st
  else if ['#'].isPrefixOf (pyStrip rawLine) then .inl st
  else if 1 < (pyStrip rawLine).length ∧
      ((pyStrip rawLine).headD ' ' = '0' ∨ (pyStrip rawLine).headD ' ' = '1') then
    if some (pyStrip (pyStrip rawLine).tail) = ids.vsyncId then
      if st.prevVsync = '0' ∧ (pyStrip rawLine).headD ' ' = '1' ∧ st.currentFrame ≠ [] then
        .inl { st with
                frames := st.frames ++ [st.currentFrame]
                currentFrame := []
                inFrame := false
                prevVsync := (pyStrip rawLine).headD ' '
                vsync := (pyStrip rawLine).headD ' ' }
      else
        .inl { st with
                prevVsync := (pyStrip rawLine).headD ' '
                vsync := (pyStrip rawLine).headD ' ' }
    else if some (pyStrip (pyStrip rawLine).tail) = ids.activeId then
      .inl { st with active := (pyStrip rawLine).headD ' ' }
    else .inl st
  else if ['b'].isPrefixOf (pyStrip rawLine) then
    if 2 ≤ (pySplit (pyStrip rawLine)).length then
      if some ((pySplit (pyStrip rawLine)).getD 1 []) = ids.colorId ∧ st.active = '1' then
        match pyTryBin (((pySplit (pyStrip rawLine)).getD 0 []).tail) with
        | some colorVal =>
          if maxPixels ≤ st.pixelCount + 1 then
            .inr (if dinsert st.currentFrame (st.x, st.y) colorVal ≠ [] then
                    st.frames ++ [dinsert st.currentFrame (st.x, st.y) colorVal]
                  else st.frames)
          else
            .inl { st with
                    currentFrame := dinsert st.currentFrame (st.x, st.y) colorVal
                    pixelCount := st.pixelCount + 1 }
        | none => .inl st
      else if some ((pySplit (pyStrip rawLine)).getD 1 []) = ids.xId then
        match pyTryBin (((pySplit (pyStrip rawLine)).getD 0 []).tail) with
        | some v => .inl { st with x := v }
        | none => .inl st
      else if some ((pySplit (pyStrip rawLine)).getD 1 []) = ids.yId then
        match pyTryBin (((pySplit (pyStrip rawLine)).getD 0 []).tail) with
        | some v => .inl { st with y := v }
        | none => .inl st
      else .inl st
    else .inl st
  else .inl st

/-- The replay loop over the body lines, plus the trailing
    `if current_frame: frames.append(current_frame)` at end of stream. -/
def runBody (ids : SigIds) (maxPixels : Nat) : List Str → RState → List Frame
  | [], st => if st.currentFrame ≠ [] then st.frames ++ [st.currentFrame] else st.frames
  | line :: rest, st =>
    match stepLine ids maxPixels st line with
    | .inl st' => runBody ids maxPixels rest st'
    | .inr fs => fs

/-- The body pass's header skip: drop every line up to and including the
    first line that starts with the end-of-definitions marker. -/
def skipHeader : List Str → List Str
  | [] => []
  | line :: rest => if endDefsTok.isPrefixOf line then rest else skipHeader rest

/-- Python truthiness of a `signal_ids.get(name)` result (`None` and the
    empty string are falsy). -/
def pyTruthy : Option Str → Bool
  | none => false
  | some s => !s.isEmpty

/-- The six `signal_ids.get` lookups at the top of `extract_frames`. -/
def resolveIds (d : List (Str × Str)) : SigIds :=
  { hsyncId := dget d "io_vga_hsync".toList,
    vsyncId := dget d "io_vga_vsync".toList,
    activeId := dget d "io_vga_activevideo".toList,
    colorId := dget d "io_vga_rrggbb".toList,
    xId := dget d "io_vga_x_pos".toList,
    yId := dget d "io_vga_y_pos".toList }

/-- `VCDParser.extract_frames` on the file's lines: header scan, the
    mandatory-signal check (on failure the source prints a diagnostic to
    stderr and returns the plain empty list), then the replay over the
    post-header lines. -/
def extract_frames (lines : List Str) (maxPixels : Nat) : List Frame :=
  if pyTruthy (resolveIds (parse_header lines [])).hsyncId &&
      pyTruthy (resolveIds (parse_header lines [])).vsyncId &&
      pyTruthy (resolveIds (parse_header lines [])).activeId &&
      pyTruthy (resolveIds (parse_header lines [])).colorId then
    runBody (resolveIds (parse_header lines [])) maxPixels (skipHeader lines) initState
  else []

/-! ### Invariant and registration predicates, and concrete inputs -/

/-- All sealed frames and the open frame have duplicate-free key lists. -/
abbrev goodNodup (st : RState) : Prop :=
  (∀ f ∈ st.frames, (f.map Prod.fst).Nodup) ∧ (st.currentFrame.map Prod.fst).Nodup

/-- All sealed frames are nonempty. -/
abbrev goodNE (st : RState) : Prop := ∀ f ∈ st.frames, f ≠ []

/-- The per-line registration condition of `parse_header`: the line passes
    the `$var` test, splits into at least five whitespace-separated fields,
    and its fifth field is `name`, which carries the `io_vga_` namespace
    marker. -/
def declRegisters (l : Str) (name : Str) : Prop :=
  (varTok.isPrefixOf l || varTok.isPrefixOf (pyStrip l)) = true ∧
  5 ≤ (pySplit (pyStrip l)).length ∧
  (pySplit (pyStrip l)).getD 4 [] = name ∧
  ioVgaPre.isPrefixOf name = true

instance (l name : Str) : Decidable (declRegisters l name) := by
  unfold declRegisters
  infer_instance

/-- The prefix of the header that `parse_header` actually scans: every line
    up to and including the first one containing the end-of-definitions
    marker. -/
def scanned : List Str → List Str
  | [] => []
  | l :: rest => if containsTok endDefsTok l then [l] else l :: scanned rest

/-- A fully resolved signal directory used in step-level witnesses. -/
def idsEx : SigIds :=
  { hsyncId := some "H".toList, vsyncId := some "V".toList,
    activeId := some "A".toList, colorId := some "C".toList,
    xId := some "X".toList, yId := some "Y".toList }

/-- A state with vsync history `'0'` and a one-pixel open frame. -/
def stSealEx : RState :=
  { initState with prevVsync := '0', currentFrame := [((0, 0), 5)] }

/-- A state with active-video asserted. -/
def stActEx : RState := { initState with active := '1' }

/-- A well-formed header declaring all six interface signals plus an
    internal look-alike. -/
def hdrEx : List Str :=
  ["$scope module TOP $end".toList,
   "$var wire 1 H io_vga_hsync $end".toList,
   "$var wire 1 V io_vga_vsync $end".toList,
   "$var wire 1 A io_vga_activevideo $end".toList,
   "$var wire 6 C io_vga_rrggbb $end".toList,
   "$var wire 10 X io_vga_x_pos $end".toList,
   "$var wire 10 Y io_vga_y_pos $end".toList,
   "$var wire 1 Z vga_hsync $end".toList,
   "$enddefinitions $end".toList]

/-- A body producing two frames: `{(0,0) ↦ 42, (1,0) ↦ 3}` and
    `{(1,0) ↦ 2}`. -/
def bodyEx : List Str :=
  ["#0".toList, "1A".toList, "b101010 C".toList, "b1 X".toList,
   "b11 C".toList, "0V".toList, "1V".toList, "b10 C".toList,
   "0V".toList, "1V".toList]

/-- The four mandatory signals scrambled among internal look-alikes and
    noise, without the optional coordinate signals, and with one
    `io_vga_`-named declaration after the end-of-definitions marker. -/
def hdrScr : List Str :=
  ["$var wire 6 C io_vga_rrggbb $end".toList,
   "$var wire 1 q vga_vsync $end".toList,
   "$var wire 1 V io_vga_vsync $end".toList,
   "garbage line".toList,
   "$var wire 1 A io_vga_activevideo $end".toList,
   "$comment foo $end".toList,
   "$var wire 1 H io_vga_hsync $end".toList,
   "$enddefinitions $end".toList,
   "$var wire 10 X io_vga_x_pos $end".toList]

/-- A header declaring only the vsync signal. -/
def hdrMissing : List Str :=
  ["$var wire 1 V io_vga_vsync $end".toList,
   "$enddefinitions $end".toList]

/-! ### Basic properties of the dict operations -/

theorem dinsert_ne_nil {α β : Type} [DecidableEq α] (f : List (α × β)) (k : α) (v : β) :
    dinsert f k v ≠ [] := by
  cases f with
  | nil => simp [dinsert]
  | cons p rest =>
    obtain ⟨k', v'⟩ := p
    simp only [dinsert]
    split <;> simp

theorem dget_dinsert_self {α β : Type} [DecidableEq α] (f : List (α × β)) (k : α) (v : β) :
    dget (dinsert f k v) k = some v := by
  induction f with
  | nil => simp [dinsert, dget]
  | cons p rest ih =>
    obtain ⟨k', v'⟩ := p
    simp only [dinsert]
    split
    · simp [dget]
    · rename_i hne
      simp [dget, hne, ih]

theorem dget_dinsert_isSome {α β : Type} [DecidableEq α] (f : List (α × β)) (k k' : α)
    (v : β) : (dget (dinsert f k v) k').isSome ↔ k' = k ∨ (dget f k').isSome := by
  induction f with
  | nil =>
    simp only [dinsert, dget]
    constructor
    · intro h
      split at h
      · rename_i hk; exact Or.inl hk.symm
      · simp at h
    · rintro (rfl | h)
      · simp
      · simp [dget] at h
  | cons p rest ih =>
    obtain ⟨k'', v''⟩ := p
    simp only [dinsert]
    split
    · rename_i hk
      subst hk
      simp only [dget]
      by_cases hkk : k'' = k'
      · simp [hkk]
      · have : ¬ (k' = k'') := fun h => hkk h.symm
        simp [hkk, this]
    · rename_i hk
      simp only [dget]
      by_cases hkk : k'' = k'
      · simp [hkk]
      · simp [hkk, ih]

theorem dinsert_map_fst {α β : Type} [DecidableEq α] (f : List (α × β)) (k : α) (v : β) :
    (dinsert f k v).map Prod.fst =
      if k ∈ f.map Prod.fst then f.map Prod.fst else f.map Prod.fst ++ [k] := by
  induction f with
  | nil => simp [dinsert]
  | cons p rest ih =>
    obtain ⟨k', v'⟩ := p
    simp only [dinsert]
    split
    · rename_i hk
      subst hk
      simp
    · rename_i hk
      have hk' : ¬ (k = k') := fun h => hk h.symm
      simp only [List.map_cons, List.mem_cons, ih]
      split

      · rename_i hmem
        simp [hk', hmem]
      · rename_i hmem
        simp [hk', hmem]

theorem dinsert_nodup_keys {α β : Type} [DecidableEq α] (f : List (α × β)) (k : α) (v : β)
    (h : (f.map Prod.fst).Nodup) : ((dinsert f k v).map Prod.fst).Nodup := by
  rw [dinsert_map_fst]
  split
  · exact h
  · rename_i hk
    simp [List.nodup_append, h, hk]

/-! ### Branch-exposure lemmas for the replay step -/

theorem isPrefixOf_single_cons (c b : Char) (bs : Str) :
    [c].isPrefixOf (b :: bs) = (c == b) := by
  simp [List.isPrefixOf]

theorem isPrefixOf_single_iff {c : Char} {l : Str} :
    [c].isPrefixOf l = true ↔ ∃ t, l = c :: t := by
  cases l with
  | nil => simp [List.isPrefixOf]
  | cons b bs =>
    simp only [List.isPrefixOf, Bool.and_eq_true, beq_iff_eq]
    constructor
    · rintro ⟨rfl, -⟩
      exact ⟨bs, rfl⟩
    · rintro ⟨t, h⟩
      cases h
      exact ⟨rfl, trivial⟩

/-- On a line whose stripped form is `<0|1><identifier>`, the replay step
    reduces to the single-bit dispatch of the source. -/
theorem stepLine_single_bit (ids : SigIds) (mp : Nat) (st : RState) (rawLine : Str)
    (v : Char) (rest : Str) (hv : v = '0' ∨ v = '1')
    (hs : pyStrip rawLine = v :: rest) (hne : rest ≠ []) :
    stepLine ids mp st rawLine =
      (if some (pyStrip rest) = ids.vsyncId then
        if st.prevVsync = '0' ∧ v = '1' ∧ st.currentFrame ≠ [] then
          .inl { st with
                  frames := st.frames ++ [st.currentFrame]
                  currentFrame := []
                  inFrame := false
                  prevVsync := v
                  vsync := v }
        else .inl { st with prevVsync := v, vsync := v }
      else if some (pyStrip rest) = ids.activeId then
        .inl { st with active := v }
      else .inl st) := by
  have hlen : 1 < (v :: rest).length := by
    cases rest with
    | nil => exact absurd rfl hne
    | cons a l => simp
  have hhash : (['#'].isPrefixOf (v :: rest)) = false := by
    rw [isPrefixOf_single_cons]
    rcases hv with rfl | rfl <;> decide
  unfold stepLine
  rw [hs]
  rw [if_neg (List.cons_ne_nil v rest)]
  rw [hhash]
  rw [if_neg (by simp : ¬ (false = true))]
  rw [if_pos ⟨hlen, by simpa using hv⟩]
  simp only [List.headD_cons, List.tail_cons]

/-- On a line whose stripped form starts with `b`, the replay step reduces
    to the multi-bit dispatch of the source. -/
theorem stepLine_bline (ids : SigIds) (mp : Nat) (st : RState) (rawLine : Str)
    (t : Str) (hs : pyStrip rawLine = 'b' :: t) :
    stepLine ids mp st rawLine =
      (if 2 ≤ (pySplit ('b' :: t)).length then
        if some ((pySplit ('b' :: t)).getD 1 []) = ids.colorId ∧ st.active = '1' then
          match pyTryBin (((pySplit ('b' :: t)).getD 0 []).tail) with
          | some colorVal =>
            if mp ≤ st.pixelCount + 1 then
              .inr (if dinsert st.currentFrame (st.x, st.y) colorVal ≠ [] then
                      st.frames ++ [dinsert st.currentFrame (st.x, st.y) colorVal]
                    else st.frames)
            else
              .inl { st with
                      currentFrame := dinsert st.currentFrame (st.x, st.y) colorVal
                      pixelCount := st.pixelCount + 1 }
          | none => .inl st
        else if some ((pySplit ('b' :: t)).getD 1 []) = ids.xId then
          match pyTryBin (((pySplit ('b' :: t)).getD 0 []).tail) with
          | some v => .inl { st with x := v }
          | none => .inl st
        else if some ((pySplit ('b' :: t)).getD 1 []) = ids.yId then
          match pyTryBin (((pySplit ('b' :: t)).getD 0 []).tail) with
          | some v => .inl { st with y := v }
          | none => .inl st
        else .inl st
      else .inl st) := by
  have hhash : (['#'].isPrefixOf ('b' :: t)) = false := by
    rw [isPrefixOf_single_cons]; decide
  have hb : (['b'].isPrefixOf ('b' :: t)) = true := by
    rw [isPrefixOf_single_cons]; decide
  unfold stepLine
  rw [hs]
  rw [if_neg (List.cons_ne_nil 'b' t)]
  rw [hhash]
  rw [if_neg (by simp : ¬ (false = true))]
  rw [if_neg (by simp : ¬ (1 < ('b' :: t).length ∧
    (('b' :: t).headD ' ' = '0' ∨ ('b' :: t).headD ' ' = '1')))]
  rw [hb]
  rw [if_pos rfl]

/-- A stripped line that is neither a well-formed single-bit change nor a
    `b`-line leaves the state unchanged (timestamps, too-short lines, and
    unrecognized forms are all ignored). -/
theorem stepLine_other (ids : SigIds) (mp : Nat) (st : RState) (line : Str)
    (c : Char) (rest : Str) (hs : pyStrip line = c :: rest)
    (hb : c ≠ 'b') (h01 : ¬ ((c = '0' ∨ c = '1') ∧ rest ≠ [])) :
    stepLine ids mp st line = .inl st := by
  unfold stepLine
  rw [hs, if_neg (List.cons_ne_nil c rest)]
  split
  · rfl
  · have hcond : ¬ (1 < (c :: rest).length ∧
        ((c :: rest).headD ' ' = '0' ∨ (c :: rest).headD ' ' = '1')) := by
      rintro ⟨hlen, hhead⟩
      apply h01
      constructor
      · simpa using hhead
      · intro hrest
        subst hrest
        simp at hlen
    rw [if_neg hcond]
    have hb2 : (['b'].isPrefixOf (c :: rest)) = false := by
      rw [isPrefixOf_single_cons]
      simp
      exact fun h => hb h.symm
    rw [hb2, if_neg (by simp : ¬ (false = true))]

/-- Exhaustive shape analysis of one replay step: every line either leaves
    the state unchanged, seals at a vsync edge, stores the vsync history,
    stores the active-video bit, stores a pixel sample (continuing, or
    sealing and early-returning at the ceiling), or updates a coordinate. -/
theorem stepLine_shapes (ids : SigIds) (mp : Nat) (st : RState) (line : Str) :
    stepLine ids mp st line = .inl st
    ∨ (st.currentFrame ≠ [] ∧ ∃ v,
        stepLine ids mp st line = .inl { st with
          frames := st.frames ++ [st.currentFrame]
          currentFrame := []
          inFrame := false
          prevVsync := v
          vsync := v })
    ∨ (∃ v, stepLine ids mp st line = .inl { st with prevVsync := v, vsync := v })
    ∨ (∃ v, stepLine ids mp st line = .inl { st with active := v })
    ∨ (∃ t v, pyStrip line = 'b' :: t ∧
        2 ≤ (pySplit ('b' :: t)).length ∧
        some ((pySplit ('b' :: t)).getD 1 []) = ids.colorId ∧ st.active = '1' ∧
        pyTryBin (((pySplit ('b' :: t)).getD 0 []).tail) = some v ∧
        ((st.pixelCount + 1 < mp ∧
          stepLine ids mp st line = .inl { st with
            currentFrame := dinsert st.currentFrame (st.x, st.y) v
            pixelCount := st.pixelCount + 1 })
         ∨ (mp ≤ st.pixelCount + 1 ∧
          stepLine ids mp st line =
            .inr (st.frames ++ [dinsert st.currentFrame (st.x, st.y) v]))))
    ∨ (∃ v, stepLine ids mp st line = .inl { st with x := v })
    ∨ (∃ v, stepLine ids mp st line = .inl { st with y := v }) := by
  cases hline : pyStrip line with
  | nil =>
    refine Or.inl ?_
    unfold stepLine
    rw [hline, if_pos rfl]
  | cons c rest =>
    by_cases hb : c = 'b'
    · subst hb
      rw [stepLine_bline ids mp st line rest hline]
      split
      · rename_i hlen2
        split
        · rename_i hca
          split
          · rename_i colorVal hsome
            split
            · rename_i hceil
              rw [if_pos (dinsert_ne_nil st.currentFrame (st.x, st.y) colorVal)]
              exact Or.inr (Or.inr (Or.inr (Or.inr (Or.inl
                ⟨rest, colorVal, rfl, hlen2, hca.1, hca.2, hsome,
                 Or.inr ⟨hceil, rfl⟩⟩))))
            · rename_i hlt
              exact Or.inr (Or.inr (Or.inr (Or.inr (Or.inl
                ⟨rest, colorVal, rfl, hlen2, hca.1, hca.2, hsome,
                 Or.inl ⟨Nat.lt_of_not_le hlt, rfl⟩⟩))))
          · exact Or.inl rfl
        · split
          · split
            · exact Or.inr (Or.inr (Or.inr (Or.inr (Or.inr (Or.inl ⟨_, rfl⟩)))))
            · exact Or.inl rfl
          · split
            · split
              · exact Or.inr (Or.inr (Or.inr (Or.inr (Or.inr (Or.inr ⟨_, rfl⟩)))))
              · exact Or.inl rfl
            · exact Or.inl rfl
      · exact Or.inl rfl
    · by_cases h01 : (c = '0' ∨ c = '1') ∧ rest ≠ []
      · rw [stepLine_single_bit ids mp st line c rest h01.1 hline h01.2]
        split
        · split
          · rename_i hseal
            exact Or.inr (Or.inl ⟨hseal.2.2, _, rfl⟩)
          · exact Or.inr (Or.inr (Or.inl ⟨_, rfl⟩))
        · split
          · exact Or.inr (Or.inr (Or.inr (Or.inl ⟨_, rfl⟩)))
          · exact Or.inl rfl
      · exact Or.inl (stepLine_other ids mp st line c rest hline hb h01)

/-! ### Frame invariants through the replay -/

theorem stepLine_goodNodup {ids : SigIds} {mp : Nat} {st : RState} {line : Str}
    (h : goodNodup st) :
    (∀ st', stepLine ids mp st line = .inl st' → goodNodup st') ∧
    (∀ fs, stepLine ids mp st line = .inr fs → ∀ f ∈ fs, (f.map Prod.fst).Nodup) := by
  obtain ⟨hf, hc⟩ := h
  rcases stepLine_shapes ids mp st line with
      heq | ⟨hne, v, heq⟩ | ⟨v, heq⟩ | ⟨v, heq⟩ |
      ⟨t, v, hb, hlen, hcid, ha, hsome, ⟨hlt, heq⟩ | ⟨hge, heq⟩⟩ | ⟨v, heq⟩ | ⟨v, heq⟩ <;>
    constructor <;> intro z hz <;> rw [heq] at hz <;>
    first
      | exact Sum.noConfusion hz
      | (injection hz with hz
         subst hz
         first
           | exact ⟨hf, hc⟩
           | (refine ⟨fun f hmem => ?_, by simp⟩
              rcases List.mem_append.mp hmem with hmem | hmem
              · exact hf f hmem
              · simp at hmem
                subst hmem
                exact hc)
           | exact ⟨hf, dinsert_nodup_keys _ _ _ hc⟩)
      | (injection hz with hz
         subst hz
         intro f hmem
         rcases List.mem_append.mp hmem with hmem | hmem
         · exact hf f hmem
         · simp at hmem
           subst hmem
           exact dinsert_nodup_keys _ _ _ hc)

theorem stepLine_goodNE {ids : SigIds} {mp : Nat} {st : RState} {line : Str}
    (h : goodNE st) :
    (∀ st', stepLine ids mp st line = .inl st' → goodNE st') ∧
    (∀ fs, stepLine ids mp st line = .inr fs → ∀ f ∈ fs, f ≠ []) := by
  rcases stepLine_shapes ids mp st line with
      heq | ⟨hne, v, heq⟩ | ⟨v, heq⟩ | ⟨v, heq⟩ |
      ⟨t, v, hb, hlen, hcid, ha, hsome, ⟨hlt, heq⟩ | ⟨hge, heq⟩⟩ | ⟨v, heq⟩ | ⟨v, heq⟩ <;>
    constructor <;> intro z hz <;> rw [heq] at hz <;>
    first
      | exact Sum.noConfusion hz
      | (injection hz with hz
         subst hz
         first
           | exact h
           | (intro f hmem
              rcases List.mem_append.mp hmem with hmem | hmem
              · exact h f hmem
              · simp at hmem
                subst hmem
                first
                  | exact hne
                  | exact dinsert_ne_nil _ _ _))

theorem runBody_goodNodup (ids : SigIds) (mp : Nat) :
    ∀ (lines : List Str) (st : RState), goodNodup st →
      ∀ f ∈ runBody ids mp lines st, (f.map Prod.fst).Nodup
  | [], st, h, f, hf => by
    unfold runBody at hf
    split at hf
    · rcases List.mem_append.mp hf with hmem | hmem
      · exact h.1 f hmem
      · simp at hmem
        subst hmem
        exact h.2
    · exact h.1 f hf
  | line :: rest, st, h, f, hf => by
    unfold runBody at hf
    cases hstep : stepLine ids mp st line with
    | inl st' =>
      rw [hstep] at hf
      exact runBody_goodNodup ids mp rest st' ((stepLine_goodNodup h).1 st' hstep) f hf
    | inr fs =>
      rw [hstep] at hf
      exact (stepLine_goodNodup h).2 fs hstep f hf

theorem runBody_goodNE (ids : SigIds) (mp : Nat) :
    ∀ (lines : List Str) (st : RState), goodNE st →
      ∀ f ∈ runBody ids mp lines st, f ≠ []
  | [], st, h, f, hf => by
    unfold runBody at hf
    split at hf
    · rcases List.mem_append.mp hf with hmem | hmem
      · exact h f hmem
      · simp at hmem
        subst hmem
        assumption
    · exact h f hf
  | line :: rest, st, h, f, hf => by
    unfold runBody at hf
    cases hstep : stepLine ids mp st line with
    | inl st' =>
      rw [hstep] at hf
      exact runBody_goodNE ids mp rest st' ((stepLine_goodNE h).1 st' hstep) f hf
    | inr fs =>
      rw [hstep] at hf
      exact (stepLine_goodNE h).2 fs hstep f hf

theorem extract_frames_nodup (lines : List Str) (mp : Nat) (f : Frame)
    (hf : f ∈ extract_frames lines mp) : (f.map Prod.fst).Nodup := by
  unfold extract_frames at hf
  split at hf
  · exact runBody_goodNodup _ _ _ _ ⟨by simp [initState], by simp [initState]⟩ f hf
  · simp at hf

theorem extract_frames_ne (lines : List Str) (mp : Nat) (f : Frame)
    (hf : f ∈ extract_frames lines mp) : f ≠ [] := by
  unfold extract_frames at hf
  split at hf
  · exact runBody_goodNE _ _ _ _ (by simp [goodNE, initState]) f hf
  · simp at hf

/-! ### Header-scan characterization -/

theorem headerLineInsert_mem (ids : List (Str × Str)) (l : Str) (name : Str) :
    (dget (headerLineInsert ids l) name).isSome ↔
      declRegisters l name ∨ (dget ids name).isSome := by
  unfold headerLineInsert declRegisters
  split
  · rename_i hvar
    split
    · rename_i hlen
      split
      · rename_i hio
        rw [dget_dinsert_isSome]
        constructor
        · rintro (h | h)
          · subst h
            exact Or.inl ⟨hvar, hlen, rfl, hio⟩
          · exact Or.inr h
        · rintro (⟨-, -, h, -⟩ | h)
          · exact Or.inl h.symm
          · exact Or.inr h
      · rename_i hio
        constructor
        · exact Or.inr
        · rintro (⟨-, -, h, hio2⟩ | h)
          · subst h
            exact absurd hio2 hio
          · exact h
    · rename_i hlen
      constructor
      · exact Or.inr
      · rintro (⟨-, hlen2, -, -⟩ | h)
        · exact absurd hlen2 hlen
        · exact h
  · rename_i hvar
    constructor
    · exact Or.inr
    · rintro (⟨hvar2, -, -, -⟩ | h)
      · exact absurd hvar2 hvar
      · exact h

theorem parse_header_mem : ∀ (lines : List Str) (ids : List (Str × Str)) (name : Str),
    (dget (parse_header lines ids) name).isSome ↔
      (∃ l ∈ scanned lines, declRegisters l name) ∨ (dget ids name).isSome
  | [], ids, name => by simp [parse_header, scanned]
  | l :: rest, ids, name => by
    unfold parse_header scanned
    by_cases hm : containsTok endDefsTok l = true
    · rw [if_pos hm, if_pos hm, headerLineInsert_mem]
      simp
    · rw [if_neg hm, if_neg hm, parse_header_mem rest (headerLineInsert ids l) name,
        headerLineInsert_mem]
      simp only [List.mem_cons]
      constructor
      · rintro (⟨l2, hl2, hd⟩ | hd | hd)
        · exact Or.inl ⟨l2, Or.inr hl2, hd⟩
        · exact Or.inl ⟨l, Or.inl rfl, hd⟩
        · exact Or.inr hd
      · rintro (⟨l2, hl2 | hl2, hd⟩ | hd)
        · subst hl2
          exact Or.inr (Or.inl hd)
        · exact Or.inl ⟨l2, hl2, hd⟩
        · exact Or.inr (Or.inr hd)

/-- Header scanning stops at the end-of-definitions marker: lines after a
    marker-bearing line never affect the directory. -/
theorem parse_header_stop : ∀ (pre post : List Str) (ids : List (Str × Str)),
    (∃ l ∈ pre, containsTok endDefsTok l = true) →
    parse_header (pre ++ post) ids = parse_header pre ids
  | [], _, _, h => by simp at h
  | l :: rest, post, ids, h => by
    show parse_header (l :: (rest ++ post)) ids = parse_header (l :: rest) ids
    unfold parse_header
    by_cases hm : containsTok endDefsTok l = true
    · rw [if_pos hm, if_pos hm]
    · rw [if_neg hm, if_neg hm]
      rcases h with ⟨l2, hl2, hm2⟩
      rcases List.mem_cons.mp hl2 with hl2 | hl2
      · subst hl2
        exact absurd hm2 hm
      · exact parse_header_stop rest post _ ⟨l2, hl2, hm2⟩

/-- Claim C4 as amended: when any mandatory role cannot be resolved after the
    header scan, `extract_frames` returns the plain empty frame sequence
    (after printing a stderr diagnostic listing the discovered signal
    names); no error object is raised, so the result is indistinguishable
    from a successful extraction that produced no frames. -/
theorem missing_signals_returns_empty (lines : List Str) (mp : Nat)
    (h : ¬ ((pyTruthy (resolveIds (parse_header lines [])).hsyncId &&
            pyTruthy (resolveIds (parse_header lines [])).vsyncId &&
            pyTruthy (resolveIds (parse_header lines [])).activeId &&
            pyTruthy (resolveIds (parse_header lines [])).colorId) = true)) :
    extract_frames lines mp = [] := by
  unfold extract_frames
  rw [if_neg h]

/-! ### Claims -/

/-- Claim C1: during replay, a single-bit change event whose identifier
    resolves to the vsync role seals the current frame (appends it to the
    output sequence and starts a new empty frame) if and only if the stored
    previous vsync value is `'0'`, the new value is `'1'`, and the current
    frame is non-empty; the stored vsync value (both the dedicated history
    bit and the snapshot field) is updated to the event's value on every
    vsync event, and a `0 → 1` edge seen while the current frame is empty
    appends nothing to the output sequence. -/
theorem vsync_edge_frame_boundary (ids : SigIds) (mp : Nat) (st : RState)
    (line : Str) (v : Char) (rest : Str) (hv : v = '0' ∨ v = '1')
    (hs : pyStrip line = v :: rest) (hne : rest ≠ [])
    (hid : some (pyStrip rest) = ids.vsyncId) :
    stepLine ids mp st line =
      (if st.prevVsync = '0' ∧ v = '1' ∧ st.currentFrame ≠ [] then
        .inl { st with
                frames := st.frames ++ [st.currentFrame]
                currentFrame := []
                inFrame := false
                prevVsync := v
                vsync := v }
      else .inl { st with prevVsync := v, vsync := v }) ∧
    (st.currentFrame = [] →
      ∃ st', stepLine ids mp st line = .inl st' ∧ st'.frames = st.frames) := by
  have h := stepLine_single_bit ids mp st line v rest hv hs hne
  rw [h, if_pos hid]
  refine ⟨rfl, ?_⟩
  intro hcur
  rw [if_neg (fun hseal => hseal.2.2 hcur)]
  exact ⟨_, rfl, rfl⟩

/-- Witness for C1: a `0 → 1` vsync edge over a one-pixel open frame seals
    exactly that frame. -/
theorem vsync_edge_frame_boundary_witness :
    stepLine idsEx 100 stSealEx ("1V".toList) =
      .inl { stSealEx with
              frames := [[((0, 0), 5)]]
              currentFrame := []
              inFrame := false
              prevVsync := '1'
              vsync := '1' } := by
  have h := vsync_edge_frame_boundary idsEx 100 stSealEx ("1V".toList) '1'
    ("V".toList) (Or.inr rfl) (by decide) (by decide) (by decide)
  rw [h.1]
  rw [if_pos (by decide)]
  decide

/-- Claim C2: a pixel sample is written into the current frame exactly when a
    well-formed multi-bit change event targets the color-bus identifier
    while the last-known active-video value is `'1'`; a color-bus change
    arriving while active-video is not `'1'` leaves the current frame and
    the output sequence unchanged.  The last two conjuncts give the "only
    when" direction: the pixel counter moves, or the early ceiling return
    fires, only on such an event. -/
theorem pixel_sample_exactly_on_active_color (ids : SigIds) (mp : Nat)
    (st : RState) (line : Str) (t : Str)
    (hs : pyStrip line = 'b' :: t)
    (hlen : 2 ≤ (pySplit ('b' :: t)).length) :
    (∀ v : Int, some ((pySplit ('b' :: t)).getD 1 []) = ids.colorId →
      st.active = '1' →
      pyTryBin (((pySplit ('b' :: t)).getD 0 []).tail) = some v →
      (mp ≤ st.pixelCount + 1 ∧ stepLine ids mp st line =
          .inr (st.frames ++ [dinsert st.currentFrame (st.x, st.y) v])) ∨
      (st.pixelCount + 1 < mp ∧ stepLine ids mp st line =
          .inl { st with
                  currentFrame := dinsert st.currentFrame (st.x, st.y) v
                  pixelCount := st.pixelCount + 1 })) ∧
    (some ((pySplit ('b' :: t)).getD 1 []) = ids.colorId → st.active ≠ '1' →
      ∃ st', stepLine ids mp st line = .inl st' ∧
        st'.currentFrame = st.currentFrame ∧ st'.frames = st.frames) ∧
    (∀ (line2 : Str) (st2 st2' : RState),
      stepLine ids mp st2 line2 = .inl st2' →
      st2'.pixelCount ≠ st2.pixelCount →
      ∃ (t2 : Str) (v2 : Int), pyStrip line2 = 'b' :: t2 ∧
        2 ≤ (pySplit ('b' :: t2)).length ∧
        some ((pySplit ('b' :: t2)).getD 1 []) = ids.colorId ∧
        st2.active = '1' ∧
        pyTryBin (((pySplit ('b' :: t2)).getD 0 []).tail) = some v2 ∧
        st2'.currentFrame = dinsert st2.currentFrame (st2.x, st2.y) v2) ∧
    (∀ (line2 : Str) (st2 : RState) (fs : List Frame),
      stepLine ids mp st2 line2 = .inr fs →
      ∃ (t2 : Str) (v2 : Int), pyStrip line2 = 'b' :: t2 ∧
        2 ≤ (pySplit ('b' :: t2)).length ∧
        some ((pySplit ('b' :: t2)).getD 1 []) = ids.colorId ∧
        st2.active = '1' ∧
        pyTryBin (((pySplit ('b' :: t2)).getD 0 []).tail) = some v2 ∧
        fs = st2.frames ++ [dinsert st2.currentFrame (st2.x, st2.y) v2]) := by
  refine ⟨?_, ?_, ?_, ?_⟩
  · intro v hcid ha hv
    rw [stepLine_bline ids mp st line t hs, if_pos hlen, if_pos ⟨hcid, ha⟩]
    simp only [hv]
    by_cases hceil : mp ≤ st.pixelCount + 1
    · rw [if_pos hceil, if_pos (dinsert_ne_nil st.currentFrame (st.x, st.y) v)]
      exact Or.inl ⟨hceil, rfl⟩
    · rw [if_neg hceil]
      exact Or.inr ⟨Nat.lt_of_not_le hceil, rfl⟩
  · intro hcid ha
    rw [stepLine_bline ids mp st line t hs, if_pos hlen,
      if_neg (fun hca => ha hca.2)]
    split
    · split
      · exact ⟨_, rfl, rfl, rfl⟩
      · exact ⟨st, rfl, rfl, rfl⟩
    · split
      · split
        · exact ⟨_, rfl, rfl, rfl⟩
        · exact ⟨st, rfl, rfl, rfl⟩
      · exact ⟨st, rfl, rfl, rfl⟩
  · intro line2 st2 st2' hstep hcount
    rcases stepLine_shapes ids mp st2 line2 with
        heq | ⟨hne2, w, heq⟩ | ⟨w, heq⟩ | ⟨w, heq⟩ |
        ⟨t2, w, hb2, hlen2, hcid2, ha2, hsome2, ⟨hlt2, heq⟩ | ⟨hge2, heq⟩⟩ |
        ⟨w, heq⟩ | ⟨w, heq⟩ <;>
      rw [heq] at hstep
    all_goals first
      | exact Sum.noConfusion hstep
      | (injection hstep with hstep
         subst hstep
         first
           | exact absurd rfl hcount
           | exact ⟨t2, w, hb2, hlen2, hcid2, ha2, hsome2, rfl⟩)
  · intro line2 st2 fs hstep
    rcases stepLine_shapes ids mp st2 line2 with
        heq | ⟨hne2, w, heq⟩ | ⟨w, heq⟩ | ⟨w, heq⟩ |
        ⟨t2, w, hb2, hlen2, hcid2, ha2, hsome2, ⟨hlt2, heq⟩ | ⟨hge2, heq⟩⟩ |
        ⟨w, heq⟩ | ⟨w, heq⟩ <;>
      rw [heq] at hstep
    all_goals first
      | exact Sum.noConfusion hstep
      | (injection hstep with hstep
         subst hstep
         exact ⟨t2, w, hb2, hlen2, hcid2, ha2, hsome2, rfl⟩)

/-- Witness for C2: a color event with active-video asserted stores the
    sample; the same event with active-video deasserted changes nothing. -/
theorem pixel_sample_exactly_on_active_color_witness :
    stepLine idsEx 100 stActEx ("b11 C".toList) =
      .inl { stActEx with currentFrame := [((0, 0), 3)], pixelCount := 1 } ∧
    stepLine idsEx 100 initState ("b11 C".toList) = .inl initState := by
  have h := pixel_sample_exactly_on_active_color idsEx 100 stActEx
    ("b11 C".toList) ("11 C".toList) (by decide) (by decide)
  constructor
  · rcases h.1 3 (by decide) (by decide) (by decide) with ⟨hge, -⟩ | ⟨-, heq⟩
    · exact absurd hge (by decide)
    · rw [heq]
      decide
  · decide

/-- Claim C3: within a single frame, a second color-bus sample at the same
    `(x, y)` coordinate overwrites the first, so the frame maps the
    coordinate to the later value only; and in every frame produced by
    `extract_frames` the coordinates are unique keys. -/
theorem frame_last_write_wins_unique_keys :
    (∀ (f : Frame) (k : Int × Int) (v1 v2 : Int),
      dget (dinsert (dinsert f k v1) k v2) k = some v2) ∧
    (∀ (lines : List Str) (mp : Nat) (f : Frame),
      f ∈ extract_frames lines mp → (f.map Prod.fst).Nodup) := by
  refine ⟨?_, extract_frames_nodup⟩
  intro f k v1 v2
  rw [dget_dinsert_self]

/-- Witness for C3: two writes to `(0, 0)` keep only the later value, and a
    concretely extracted frame has duplicate-free keys. -/
theorem frame_last_write_wins_unique_keys_witness :
    dget (dinsert (dinsert ([] : Frame) (0, 0) 1) (0, 0) 2) (0, 0) = some 2 ∧
    ((([((0, 0), 42), ((1, 0), 3)] : Frame)).map Prod.fst).Nodup := by
  constructor
  · exact frame_last_write_wins_unique_keys.1 [] (0, 0) 1 2
  · exact frame_last_write_wins_unique_keys.2 (hdrEx ++ bodyEx) 100
      [((0, 0), 42), ((1, 0), 3)] (by decide)

/-- Counterexample to claim C4 as stated: on a header missing three of the
    four mandatory roles, the extraction call does not abort with an error
    value — it returns the ordinary empty frame sequence, the very value a
    successful no-frame extraction returns. -/
theorem missing_signals_returns_empty_cex :
    extract_frames (hdrMissing ++ bodyEx) 100 = ([] : List Frame) ∧
    extract_frames (hdrMissing ++ bodyEx) 100 = extract_frames hdrEx 100 := by
  constructor <;> decide

/-- Witness for the amended C4 at a concrete missing-signal trace. -/
theorem missing_signals_returns_empty_witness :
    extract_frames (hdrMissing ++ bodyEx) 5 = [] :=
  missing_signals_returns_empty (hdrMissing ++ bodyEx) 5 (by decide)

/-- Counterexample to claim C5 as stated: a single-bit change event carrying
    value `'0'` on the hsync identifier leaves the whole replay state —
    including the snapshot's hsync field, still `'1'` — unchanged, because
    the replay loop has no hsync branch. -/
theorem hsync_not_updated_cex :
    stepLine idsEx 100 initState ("0H".toList) = .inl initState ∧
    initState.hsync = '1' ∧ ('1' : Char) ≠ '0' := by
  refine ⟨by decide, by decide, by decide⟩

/-- Claim C5 as amended: a single-bit change on the active-video identifier
    updates the snapshot's active bit to the event's value, but a
    single-bit change on the hsync identifier (when hsync is a distinct
    role) is ignored: the state, including the snapshot's hsync field, is
    left unchanged. -/
theorem hsync_ignored_active_updated (ids : SigIds) (mp : Nat) (st : RState)
    (line : Str) (v : Char) (rest : Str) (hv : v = '0' ∨ v = '1')
    (hs : pyStrip line = v :: rest) (hne : rest ≠ []) :
    (some (pyStrip rest) = ids.activeId → some (pyStrip rest) ≠ ids.vsyncId →
      stepLine ids mp st line = .inl { st with active := v }) ∧
    (some (pyStrip rest) = ids.hsyncId → some (pyStrip rest) ≠ ids.vsyncId →
      some (pyStrip rest) ≠ ids.activeId →
      stepLine ids mp st line = .inl st) := by
  have h := stepLine_single_bit ids mp st line v rest hv hs hne
  constructor
  · intro ha hnv
    rw [h, if_neg hnv, if_pos ha]
  · intro _ hnv hna
    rw [h, if_neg hnv, if_neg hna]

/-- Witness for the amended C5: active-video is stored, hsync is dropped. -/
theorem hsync_ignored_active_updated_witness :
    stepLine idsEx 100 initState ("1A".toList) =
      .inl { initState with active := '1' } ∧
    stepLine idsEx 100 initState ("0H".toList) = .inl initState := by
  constructor
  · exact (hsync_ignored_active_updated idsEx 100 initState ("1A".toList) '1'
      ("A".toList) (Or.inr rfl) (by decide) (by decide)).1 (by decide) (by decide)
  · exact (hsync_ignored_active_updated idsEx 100 initState ("0H".toList) '0'
      ("H".toList) (Or.inl rfl) (by decide) (by decide)).2 (by decide) (by decide)
      (by decide)

/-- Counterexample to claim C6 as stated: the bit string `1_1` contains the
    non-binary character `'_'`, yet the event is not ignored — CPython's
    `int` accepts underscore separators, so the sample decodes to 3 and is
    stored in the frame. -/
theorem underscore_bits_not_ignored_cex :
    ('_' ≠ '0' ∧ '_' ≠ '1') ∧
    extract_frames (hdrEx ++ ["1A".toList, "b1_1 C".toList]) 100 =
      [[((0, 0), 3)]] := by
  constructor <;> decide

/-- Claim C6 as amended: an empty bit string decodes to 0; a bit string that
    CPython `int(·, 2)` rejects (it accepts binary digits with single
    interior underscores, an optional sign, and an optional `0b` marker) is
    silently ignored, leaving the state — snapshot fields and current frame
    — unchanged, and replay continues, so a following well-formed sample is
    still captured correctly. -/
theorem malformed_bits_ignored (ids : SigIds) (mp : Nat) (st : RState)
    (line : Str) (t : Str) (hs : pyStrip line = 'b' :: t)
    (hlen : 2 ≤ (pySplit ('b' :: t)).length) :
    pyTryBin [] = some 0 ∧
    (pyTryBin (((pySplit ('b' :: t)).getD 0 []).tail) = none →
      stepLine ids mp st line = .inl st) ∧
    extract_frames (hdrEx ++ ["1A".toList, "b1_x C".toList, "b11 C".toList])
      100 = [[((0, 0), 3)]] := by
  refine ⟨rfl, ?_, by decide⟩
  intro hnone
  rw [stepLine_bline ids mp st line t hs, if_pos hlen]
  split
  · simp only [hnone]
  · split
    · simp only [hnone]
    · split
      · simp only [hnone]
      · rfl

/-- Witness for the amended C6: a malformed color sample with active-video
    asserted changes nothing. -/
theorem malformed_bits_ignored_witness :
    pyTryBin [] = some 0 ∧
    stepLine idsEx 100 stActEx ("b1_x C".toList) = .inl stActEx := by
  have h := malformed_bits_ignored idsEx 100 stActEx ("b1_x C".toList)
    ("1_x C".toList) (by decide) (by decide)
  exact ⟨h.1, h.2.1 (by decide)⟩

/-- Claim C7: when the running pixel counter reaches the configured ceiling,
    the just-extended current frame (necessarily non-empty, so the
    "seal if non-empty" guard passes) is sealed into the output and
    extraction halts immediately: the result is the same for every
    remaining event list `rest`, so no event after the ceiling-reaching
    sample affects the returned output sequence. -/
theorem pixel_ceiling_halts (ids : SigIds) (mp : Nat) (st : RState)
    (line : Str) (t : Str) (v : Int) (rest : List Str)
    (hs : pyStrip line = 'b' :: t)
    (hlen : 2 ≤ (pySplit ('b' :: t)).length)
    (hcid : some ((pySplit ('b' :: t)).getD 1 []) = ids.colorId)
    (ha : st.active = '1')
    (hv : pyTryBin (((pySplit ('b' :: t)).getD 0 []).tail) = some v)
    (hceil : mp ≤ st.pixelCount + 1) :
    dinsert st.currentFrame (st.x, st.y) v ≠ [] ∧
    runBody ids mp (line :: rest) st =
      st.frames ++ [dinsert st.currentFrame (st.x, st.y) v] := by
  have hstep : stepLine ids mp st line =
      .inr (st.frames ++ [dinsert st.currentFrame (st.x, st.y) v]) := by
    rw [stepLine_bline ids mp st line t hs, if_pos hlen, if_pos ⟨hcid, ha⟩]
    simp only [hv]
    rw [if_pos hceil, if_pos (dinsert_ne_nil st.currentFrame (st.x, st.y) v)]
  refine ⟨dinsert_ne_nil st.currentFrame (st.x, st.y) v, ?_⟩
  unfold runBody
  rw [hstep]

/-- Witness for C7: with ceiling 1, the first sample seals the frame and
    the two following events (a vsync edge and another sample) are
    discarded. -/
theorem pixel_ceiling_halts_witness :
    runBody idsEx 1 ["b11 C".toList, "1V".toList, "b10 C".toList] stActEx =
      [[((0, 0), 3)]] := by
  have h := pixel_ceiling_halts idsEx 1 stActEx ("b11 C".toList)
    ("11 C".toList) 3 ["1V".toList, "b10 C".toList] (by decide) (by decide)
    (by decide) (by decide) (by decide) (by decide)
  rw [h.2]
  decide

/-- Claim C8: at end of stream, a non-empty open frame is sealed as the final
    frame of the output sequence and an empty open frame appends nothing;
    moreover every frame in any `extract_frames` output is non-empty. -/
theorem end_of_stream_seals_nonempty (ids : SigIds) (mp : Nat) :
    (∀ st : RState, st.currentFrame ≠ [] →
      runBody ids mp [] st = st.frames ++ [st.currentFrame]) ∧
    (∀ st : RState, st.currentFrame = [] → runBody ids mp [] st = st.frames) ∧
    (∀ (lines : List Str) (mp2 : Nat) (f : Frame),
      f ∈ extract_frames lines mp2 → f ≠ []) := by
  refine ⟨?_, ?_, extract_frames_ne⟩
  · intro st h
    unfold runBody
    rw [if_pos h]
  · intro st h
    unfold runBody
    rw [if_neg (fun hh => hh h)]

/-- Witness for C8: a one-pixel open frame is sealed at end of stream, an
    empty one is not, and a concretely extracted frame is non-empty. -/
theorem end_of_stream_seals_nonempty_witness :
    runBody idsEx 100 [] stSealEx = [[((0, 0), 5)]] ∧
    runBody idsEx 100 [] initState = [] ∧
    ([((0, 0), 42), ((1, 0), 3)] : Frame) ≠ [] := by
  refine ⟨?_, ?_, ?_⟩
  · rw [(end_of_stream_seals_nonempty idsEx 100).1 stSealEx (by decide)]
    decide
  · rw [(end_of_stream_seals_nonempty idsEx 100).2.1 initState (by decide)]
    decide
  · exact (end_of_stream_seals_nonempty idsEx 100).2.2 (hdrEx ++ bodyEx) 100
      [((0, 0), 42), ((1, 0), 3)] (by decide)

/-- Claim C9: a name is registered by the header scan iff some line in the
    scanned region (which ends at the end-of-definitions marker: later
    lines never matter) is a `$var` declaration with at least five
    whitespace-separated fields whose name field is that name and carries
    the `io_vga_` marker; consequently internal look-alikes are never
    registered, and on a concrete valid header with the four mandatory
    signals scrambled among look-alikes exactly those four (and no
    coordinate roles) resolve. -/
theorem header_registration_characterization :
    (∀ (lines : List Str) (name : Str),
      (dget (parse_header lines []) name).isSome ↔
        ∃ l ∈ scanned lines, declRegisters l name) ∧
    (∀ pre post : List Str,
      (∃ l ∈ pre, containsTok endDefsTok l = true) →
      parse_header (pre ++ post) [] = parse_header pre []) ∧
    (pyTruthy (resolveIds (parse_header hdrScr [])).hsyncId = true ∧
     pyTruthy (resolveIds (parse_header hdrScr [])).vsyncId = true ∧
     pyTruthy (resolveIds (parse_header hdrScr [])).activeId = true ∧
     pyTruthy (resolveIds (parse_header hdrScr [])).colorId = true ∧
     (resolveIds (parse_header hdrScr [])).xId = none ∧
     (resolveIds (parse_header hdrScr [])).yId = none ∧
     dget (parse_header hdrScr []) ("vga_vsync".toList) = none ∧
     dget (parse_header hdrScr []) ("vga_hsync".toList) = none) := by
  refine ⟨?_, ?_, by decide⟩
  · intro lines name
    rw [parse_header_mem]
    simp [dget]
  · intro pre post h
    exact parse_header_stop pre post [] h

/-- Witness for C9: a mandatory signal of the scrambled header is resolved
    through the characterization, and appending a declaration after the
    marker changes nothing. -/
theorem header_registration_characterization_witness :
    (dget (parse_header hdrScr []) ("io_vga_vsync".toList)).isSome = true ∧
    parse_header (hdrScr ++ ["$var wire 10 Y io_vga_y_pos $end".toList]) [] =
      parse_header hdrScr [] := by
  constructor
  · exact (header_registration_characterization.1 hdrScr
      ("io_vga_vsync".toList)).mpr
      ⟨"$var wire 1 V io_vga_vsync $end".toList, by decide, by decide⟩
  · exact header_registration_characterization.2.1 hdrScr
      ["$var wire 10 Y io_vga_y_pos $end".toList]
      ⟨"$enddefinitions $end".toList, by decide, by decide⟩

/-- Claim C10: each continuing replay step either keeps the pixel counter or
    increments it by exactly one, the latter exactly when a color sample is
    stored (overwrites of an occupied coordinate included, since the stored
    frame is always the dict update); continuing states keep the counter
    strictly below the ceiling, so at most `mp` samples are ever counted;
    an early return stores the ceiling-reaching sample itself in the
    output; and on a concrete trace with ceiling 2 whose second sample
    overwrites the first, the output holds strictly fewer than 2 distinct
    coordinate entries. -/
theorem pixel_counter_invariants (ids : SigIds) (mp : Nat) :
    (∀ (st st' : RState) (line : Str), stepLine ids mp st line = .inl st' →
      st'.pixelCount = st.pixelCount ∨
      (st'.pixelCount = st.pixelCount + 1 ∧ st.active = '1' ∧
        ∃ v : Int, st'.currentFrame = dinsert st.currentFrame (st.x, st.y) v)) ∧
    (∀ (st st' : RState) (line : Str), st.pixelCount < mp →
      stepLine ids mp st line = .inl st' → st'.pixelCount < mp) ∧
    (∀ (st : RState) (line : Str) (fs : List Frame),
      stepLine ids mp st line = .inr fs →
      ∃ v : Int, mp ≤ st.pixelCount + 1 ∧ st.active = '1' ∧
        fs = st.frames ++ [dinsert st.currentFrame (st.x, st.y) v]) ∧
    extract_frames (hdrEx ++ ["1A".toList, "b1 C".toList, "b10 C".toList]) 2 =
      [[((0, 0), 2)]] := by
  refine ⟨?_, ?_, ?_, by decide⟩
  · intro st st' line hstep
    rcases stepLine_shapes ids mp st line with
        heq | ⟨hne2, w, heq⟩ | ⟨w, heq⟩ | ⟨w, heq⟩ |
        ⟨t2, w, hb2, hlen2, hcid2, ha2, hsome2, ⟨hlt2, heq⟩ | ⟨hge2, heq⟩⟩ |
        ⟨w, heq⟩ | ⟨w, heq⟩ <;>
      rw [heq] at hstep
    all_goals first
      | exact Sum.noConfusion hstep
      | (injection hstep with hstep
         subst hstep
         first
           | exact Or.inl rfl
           | exact Or.inr ⟨rfl, ha2, w, rfl⟩)
  · intro st st' line hlt hstep
    rcases stepLine_shapes ids mp st line with
        heq | ⟨hne2, w, heq⟩ | ⟨w, heq⟩ | ⟨w, heq⟩ |
        ⟨t2, w, hb2, hlen2, hcid2, ha2, hsome2, ⟨hlt2, heq⟩ | ⟨hge2, heq⟩⟩ |
        ⟨w, heq⟩ | ⟨w, heq⟩ <;>
      rw [heq] at hstep
    all_goals first
      | exact Sum.noConfusion hstep
      | (injection hstep with hstep
         subst hstep
         first
           | exact hlt
           | exact hlt2)
  · intro st line fs hstep
    rcases stepLine_shapes ids mp st line with
        heq | ⟨hne2, w, heq⟩ | ⟨w, heq⟩ | ⟨w, heq⟩ |
        ⟨t2, w, hb2, hlen2, hcid2, ha2, hsome2, ⟨hlt2, heq⟩ | ⟨hge2, heq⟩⟩ |
        ⟨w, heq⟩ | ⟨w, heq⟩ <;>
      rw [heq] at hstep
    all_goals first
      | exact Sum.noConfusion hstep
      | (injection hstep with hstep
         subst hstep
         exact ⟨w, hge2, ha2, rfl⟩)

/-- Witness for C10: a concrete sample step keeps the counter below the
    ceiling, and the overwriting trace from the theorem's closed clause. -/
theorem pixel_counter_invariants_witness :
    ({ stActEx with currentFrame := [((0, 0), 3)], pixelCount := 1 } :
      RState).pixelCount < 100 ∧
    extract_frames (hdrEx ++ ["1A".toList, "b1 C".toList, "b10 C".toList]) 2 =
      [[((0, 0), 2)]] := by
  constructor
  · exact (pixel_counter_invariants idsEx 100).2.1 stActEx
      { stActEx with currentFrame := [((0, 0), 3)], pixelCount := 1 }
      ("b11 C".toList) (by decide) (by decide)
  · exact (pixel_counter_invariants idsEx 100).2.2.2

example : pyIntBin "1_1".toList = some 3 := by decide
example : pyIntBin "101".toList = some 5 := by decide
example : pyIntBin "".toList = none := by decide
example : pyIntBin "1_".toList = none := by decide
example : pyIntBin "_1".toList = none := by decide
example : pyIntBin "1__1".toList = none := by decide
example : pyIntBin "-1".toList = some (-1) := by decide
example : pyIntBin "0b_1".toList = some 1 := by decide
example : pyIntBin "0b".toList = none := by decide
example : pyIntBin "12".toList = none := by decide
example : pyTryBin "".toList = some 0 := by decide
example : pySplit "$var wire 1 V io_vga_vsync $end".toList =
    ["$var".toList, "wire".toList, "1".toList, "V".toList,
     "io_vga_vsync".toList, "$end".toList] := by decide

end VgaRender
